import Mathlib

/-!
Shallow embedding of the DTD deconvolution model core
(src/src/models.cc and src/src/models.hpp, namespace dtd::models).

Matrices over index types: the design matrix x has genes G and cell types
K, the response matrix y has genes G and samples S, the reference matrix c
has cell types K and samples S.  Machine doubles are modeled as real
numbers; Eigen dense matrices as Mathlib matrices.  The statistics
routines (stat::cor, stat::std, stat::cov from utils.hpp) and the
configuration enums (config.hpp) are not part of src/ and are modeled
from the spec where noted.
-/

set_option linter.unusedSectionVars false
set_option linter.unusedVariables false

noncomputable section

namespace dtd

variable {G K S : Type*} [Fintype G] [Fintype K] [Fintype S]
variable [DecidableEq G] [DecidableEq K]

/-- Modelled from the spec: the statistics library (utils.hpp, an external
collaborator per the spec) supplies mean, covariance, variance, standard
deviation and Pearson correlation over numeric sequences.  Population
conventions are used; Pearson correlation is independent of that choice
since the normalisation factors cancel. -/
def stat.mean (a : S → ℝ) : ℝ := (∑ s, a s) / (Fintype.card S : ℝ)

/-- Modelled from the spec: covariance of two sequences. -/
def stat.cov (a b : S → ℝ) : ℝ :=
  (∑ s, (a s - stat.mean a) * (b s - stat.mean b)) / (Fintype.card S : ℝ)

/-- Modelled from the spec: variance of a sequence. -/
def stat.var (a : S → ℝ) : ℝ := stat.cov a a

/-- Modelled from the spec: standard deviation of a sequence. -/
def stat.std (a : S → ℝ) : ℝ := Real.sqrt (stat.var a)

/-- Modelled from the spec: Pearson correlation of two sequences. -/
def stat.cor (a b : S → ℝ) : ℝ := stat.cov a b / (stat.std a * stat.std b)

/-- models.cc lines 7-10: `sgn(x) = (T(0) < x) - (x < T(0))`. -/
def sgn (x : ℝ) : ℝ := (if 0 < x then 1 else 0) - (if x < 0 then 1 else 0)

/-- models.cc lines 11-19: elementwise soft-thresholding,
`res[i] = sgn(x) * max(std::abs(x) - softfactor, 0.0)`. -/
def softmax (v : G → ℝ) (softfactor : ℝ) : G → ℝ :=
  fun i => sgn (v i) * max (|v i| - softfactor) 0

/-- The weighted Gram matrix `xtgx = x.transpose() * g.asDiagonal() * x`
from models.cc line 21. -/
def xtgx (x : Matrix G K ℝ) (g : G → ℝ) : Matrix K K ℝ :=
  x.transpose * Matrix.diagonal g * x

/-- models.cc lines 20-24: `xtgx.llt().solve(Identity)`.  The Cholesky
solve against the identity is modeled as the matrix inverse, which it
equals exactly (in exact arithmetic) whenever `xtgx` is positive
definite.  Note the source checks nothing and Eigen's LLT solve does not
throw: for a non-positive-definite input the function still returns an
(unspecified, meaningless) matrix rather than raising an error. -/
def invxtgx (x : Matrix G K ℝ) (g : G → ℝ) : Matrix K K ℝ :=
  (xtgx x g)⁻¹

/-- models.cc lines 25-27: `c_hat = xtgxi * x.transpose() * g.asDiagonal() * y`. -/
def estimate_c_direct (x : Matrix G K ℝ) (y : Matrix G S ℝ) (g : G → ℝ)
    (xtgxi : Matrix K K ℝ) : Matrix K S ℝ :=
  xtgxi * x.transpose * Matrix.diagonal g * y

/-- models.cc lines 33-46: `GoertlerModel::evaluate(g, xtgxi)`.  The loop
starts from `res = 0.0`, subtracts `stat::cor(m_c.row(icell), c_hat.row(icell))`
for each cell type, and returns `res / m_ncells`. -/
def evaluate (x : Matrix G K ℝ) (y : Matrix G S ℝ) (c : Matrix K S ℝ)
    (g : G → ℝ) (xtgxi : Matrix K K ℝ) : ℝ :=
  (∑ k : K, -(stat.cor (c k) (estimate_c_direct x y g xtgxi k))) / (Fintype.card K : ℝ)

/-- Modelled from the spec: models.hpp line 13 declares
`ftype eval(vec const & g) const` but its body is not in src/; per the
spec it computes `xtgxi` from the weights and scores via `evaluate`,
mirroring how `GoertlerModel::grad` (models.cc lines 79-82) first calls
`invxtgx` and then the explicit-inverse worker. -/
def eval (x : Matrix G K ℝ) (y : Matrix G S ℝ) (c : Matrix K S ℝ) (g : G → ℝ) : ℝ :=
  evaluate x y c g (invxtgx x g)

/-- models.cc lines 47-51: `clampPos` sets `x[i] = std::min(x[i], 0.0)`
for every entry (in-place mutation modeled by returning the new vector). -/
def clampPos (x : G → ℝ) : G → ℝ := fun i => min (x i) 0

/-- models.cc lines 52-56: `clampNeg` sets `x[i] = std::max(x[i], 0.0)`
for every entry (in-place mutation modeled by returning the new vector). -/
def clampNeg (x : G → ℝ) : G → ℝ := fun i => max (x i) 0

/-- models.cc lines 57-78: `GoertlerModel::grad_explicit_inverse`.
Builds the sensitivity matrix A row by row, forms
`tmp = (y - x*xtgxi*xᵀ*diag(g)*y) * Aᵀ * xtgxi * xᵀ`, takes its diagonal
as the raw gradient and applies `clampPos` to it. -/
def grad_explicit_inverse (x : Matrix G K ℝ) (y : Matrix G S ℝ) (c : Matrix K S ℝ)
    (g : G → ℝ) (xtgxi : Matrix K K ℝ) : G → ℝ :=
  let c_hat := estimate_c_direct x y g xtgxi
  let nS : ℝ := (Fintype.card S : ℝ)
  let A : Matrix K S ℝ := Matrix.of fun k s =>
    (stat.cov (c k) (c_hat k) / (nS * stat.std (c_hat k) * stat.std (c_hat k))
        * (c_hat k s - stat.mean (c_hat k))
      - (c k s - stat.mean (c k)) / nS) / (stat.std (c k) * stat.std (c_hat k))
  let tmp : Matrix G G ℝ :=
    (y - x * xtgxi * x.transpose * Matrix.diagonal g * y) * A.transpose * xtgxi * x.transpose
  clampPos (fun i => tmp i i)

/-- models.cc lines 79-82: `GoertlerModel::grad` computes `xtgxi` via
`invxtgx` and delegates to `grad_explicit_inverse`. -/
def grad (x : Matrix G K ℝ) (y : Matrix G S ℝ) (c : Matrix K S ℝ) (g : G → ℝ) : G → ℝ :=
  grad_explicit_inverse x y c g (invxtgx x g)

/-- Modelled from the spec: config.hpp (not in src/) declares the
configuration enum `ThresholdFunctions`; a C++ enum class is backed by an
integral type, so it is modeled as the integers with the named
enumerator as a distinguished value. -/
abbrev ThresholdFunctions : Type := Int

/-- Modelled from the spec: the SOFTMAX enumerator of ThresholdFunctions. -/
def ThresholdFunctions.SOFTMAX : ThresholdFunctions := 0

/-- Modelled from the spec: config.hpp enum `NormFunctions`. -/
abbrev NormFunctions : Type := Int

/-- Modelled from the spec: the IDENTITY enumerator of NormFunctions. -/
def NormFunctions.IDENTITY : NormFunctions := 0

/-- Modelled from the spec: the NORM2 enumerator of NormFunctions. -/
def NormFunctions.NORM2 : NormFunctions := 1

/-- Modelled from the spec: config.hpp enum `SubspaceFunctions`. -/
abbrev SubspaceFunctions : Type := Int

/-- Modelled from the spec: the POSITIVE enumerator of SubspaceFunctions. -/
def SubspaceFunctions.POSITIVE : SubspaceFunctions := 0

/-- models.cc lines 83-88: `GoertlerModel::threshold` dispatches on the
configured threshold variant; SOFTMAX applies `softmax`, anything else
throws `std::runtime_error("unimplemented threshold function.")`. -/
def threshold (t : ThresholdFunctions) (v : G → ℝ) (softfactor : ℝ) :
    Except String (G → ℝ) :=
  if t = ThresholdFunctions.SOFTMAX then Except.ok (softmax v softfactor)
  else Except.error "unimplemented threshold function."

/-- Eigen `v.norm()`: the Euclidean norm of a dense vector. -/
def vecNorm (v : G → ℝ) : ℝ := Real.sqrt (∑ i, v i ^ 2)

/-- models.cc lines 89-97: `GoertlerModel::norm_constraint` mutates its
argument in place; the result models the post-call value of `v`.
IDENTITY leaves `v` unchanged, NORM2 performs `v /= v.norm()` with no
zero check (real division by zero stands in for the silent NaN result),
anything else throws
`std::runtime_error("unimplemented norm function. ")`. -/
def norm_constraint (t : NormFunctions) (v : G → ℝ) : Except String (G → ℝ) :=
  if t = NormFunctions.IDENTITY then Except.ok v
  else if t = NormFunctions.NORM2 then Except.ok (fun i => v i / vecNorm v)
  else Except.error "unimplemented norm function. "

/-- models.cc lines 98-108: `GoertlerModel::subspace_constraint` takes
`v` by const reference.  The POSITIVE branch copies `v` into a local
`res`, clamps the copy with `clampNeg` and returns it; any other variant
throws `std::runtime_error("unimplemented subspace constraint.")`.  The
pair returned here is (returned value or error, post-call value of the
caller argument `v`); the argument is never written, only its copy. -/
def subspace_constraint_run (t : SubspaceFunctions) (v : G → ℝ) :
    Except String (G → ℝ) × (G → ℝ) :=
  if t = SubspaceFunctions.POSITIVE then
    (Except.ok (clampNeg v), v)
  else (Except.error "unimplemented subspace constraint.", v)

/-- The value returned by `GoertlerModel::subspace_constraint`. -/
def subspace_constraint (t : SubspaceFunctions) (v : G → ℝ) : Except String (G → ℝ) :=
  (subspace_constraint_run t v).1

/-- models.hpp lines 7-18: the stored state of a `GoertlerModel` — the
`int m_ngenes` member and the three matrices `m_x, m_y, m_c`. -/
structure GoertlerModelState (G K S : Type*) where
  m_ngenes : Int
  m_x : Matrix G K ℝ
  m_y : Matrix G S ℝ
  m_c : Matrix K S ℝ

/-- models.hpp line 12: `GoertlerModel(mat x, mat y, mat c) : m_x(x), m_y(y), m_c(c) {}`.
The initializer list sets only the three matrices; `m_ngenes` is left
uninitialized, so its post-construction content is an indeterminate
value, modeled by the explicit `uninit` parameter. -/
def mkGoertlerModel (uninit : Int) (x : Matrix G K ℝ) (y : Matrix G S ℝ)
    (c : Matrix K S ℝ) : GoertlerModelState G K S :=
  ⟨uninit, x, y, c⟩

/-- models.hpp lines 15-17: `dim()` returns `static_cast<std::size_t>(m_ngenes)`. -/
def GoertlerModelState.dim (m : GoertlerModelState G K S) : Int :=
  m.m_ngenes

lemma xtgx_apply (x : Matrix G K ℝ) (g : G → ℝ) (k l : K) :
    xtgx x g k l = ∑ i, x i k * g i * x i l := by
  simp [xtgx, Matrix.mul_apply, Matrix.diagonal_apply, Matrix.transpose_apply,
    ite_mul, mul_ite, zero_mul, mul_zero, Finset.sum_ite_eq, Finset.sum_ite_eq',
    mul_assoc]

lemma estimate_apply (x : Matrix G K ℝ) (y : Matrix G S ℝ) (g : G → ℝ)
    (xtgxi : Matrix K K ℝ) (k : K) (s : S) :
    estimate_c_direct x y g xtgxi k s = ∑ i, (∑ l, xtgxi k l * x i l) * g i * y i s := by
  simp [estimate_c_direct, Matrix.mul_apply, Matrix.diagonal_apply, Matrix.transpose_apply,
    ite_mul, mul_ite, zero_mul, mul_zero, Finset.sum_ite_eq, Finset.sum_ite_eq',
    Finset.sum_mul, mul_assoc]

lemma stat.cov_fin_two (a b : Fin 2 → ℝ) :
    stat.cov a b = (a 0 - a 1) * (b 0 - b 1) / 4 := by
  simp only [stat.cov, stat.mean, Fin.sum_univ_two, Fintype.card_fin]
  ring

lemma stat.var_fin_two (a : Fin 2 → ℝ) : stat.var a = (a 0 - a 1) ^ 2 / 4 := by
  rw [stat.var, stat.cov_fin_two]
  ring

lemma stat.std_fin_two (a : Fin 2 → ℝ) : stat.std a = |a 0 - a 1| / 2 := by
  rw [stat.std, stat.var_fin_two, show (a 0 - a 1) ^ 2 / 4 = ((a 0 - a 1) / 2) ^ 2 by ring,
    Real.sqrt_sq_eq_abs, abs_div]
  norm_num

lemma stat.cor_fin_two (a b : Fin 2 → ℝ) :
    stat.cor a b = (a 0 - a 1) * (b 0 - b 1) / (|a 0 - a 1| * |b 0 - b 1|) := by
  rw [stat.cor, stat.cov_fin_two, stat.std_fin_two, stat.std_fin_two,
    div_mul_div_comm, div_div_div_comm]
  norm_num

lemma sgn_mul_abs (x : ℝ) : sgn x * |x| = x := by
  rcases lt_trichotomy x 0 with h | h | h
  · rw [abs_of_neg h]
    simp only [sgn, if_pos h, if_neg (asymm h)]
    ring
  · simp [sgn, h]
  · rw [abs_of_pos h]
    simp only [sgn, if_pos h, if_neg (asymm h)]
    ring

/-- C2: for every weight vector g, every entry of the vector returned by
gradient(g) lies in the interval (-infinity, 0]: the one-sided clamp
`clampPos` is applied to the raw diagonal gradient before returning. -/
theorem C2_grad_entries_nonpos (x : Matrix G K ℝ) (y : Matrix G S ℝ)
    (c : Matrix K S ℝ) (g : G → ℝ) (i : G) : grad x y c g i ≤ 0 := by
  simp only [grad, grad_explicit_inverse, clampPos]
  exact min_le_right _ _

/-- C3: the threshold operator with the SOFTMAX variant returns the vector
with entry i equal to sign(v i) * max(abs (v i) - lambda, 0); every entry
with abs (v i) <= lambda is mapped to zero, and threshold(v, 0) returns v
unchanged. -/
theorem C3_threshold_softmax (v : G → ℝ) (lam : ℝ) :
    (∃ w, threshold ThresholdFunctions.SOFTMAX v lam = Except.ok w ∧
      (∀ i, w i = sgn (v i) * max (|v i| - lam) 0) ∧
      (∀ i, |v i| ≤ lam → w i = 0)) ∧
    threshold ThresholdFunctions.SOFTMAX v 0 = Except.ok v := by
  constructor
  · refine ⟨softmax v lam, by simp [threshold], fun i => rfl, fun i h => ?_⟩
    have hle : |v i| - lam ≤ 0 := by linarith
    simp [softmax, max_eq_right hle]
  · have hok : threshold ThresholdFunctions.SOFTMAX v 0 = Except.ok (softmax v 0) := by
      simp [threshold]
    rw [hok]
    congr 1
    funext i
    simp only [softmax, sub_zero, max_eq_left (abs_nonneg (v i))]
    exact sgn_mul_abs (v i)

/-- C3 witness: at v = (2, -1) and lambda = 3 both entries are below the
threshold in absolute value, hence mapped to zero. -/
theorem C3_threshold_softmax_witness :
    ∃ w, threshold ThresholdFunctions.SOFTMAX (![2, -1] : Fin 2 → ℝ) 3 = Except.ok w ∧
      w 0 = 0 ∧ w 1 = 0 := by
  obtain ⟨⟨w, hok, _, hzero⟩, _⟩ := C3_threshold_softmax (![2, -1] : Fin 2 → ℝ) 3
  refine ⟨w, hok, hzero 0 (by norm_num), hzero 1 (by norm_num)⟩

/-- C7: the subspace constraint with the POSITIVE variant returns a vector
with no negative entries and is the identity on inputs that are already
entrywise non-negative. -/
theorem C7_subspace_positive (v : G → ℝ) :
    ∃ w, subspace_constraint SubspaceFunctions.POSITIVE v = Except.ok w ∧
      (∀ i, 0 ≤ w i) ∧ ((∀ i, 0 ≤ v i) → w = v) := by
  refine ⟨clampNeg v, by simp [subspace_constraint, subspace_constraint_run],
    fun i => le_max_right _ _, fun h => ?_⟩
  funext i
  exact max_eq_left (h i)

/-- C7 witness: the already-non-negative vector (1, 2) is returned unchanged. -/
theorem C7_subspace_positive_witness :
    ∃ w, subspace_constraint SubspaceFunctions.POSITIVE (![1, 2] : Fin 2 → ℝ) = Except.ok w ∧
      w = (![1, 2] : Fin 2 → ℝ) := by
  obtain ⟨w, hok, _, hid⟩ := C7_subspace_positive (![1, 2] : Fin 2 → ℝ)
  refine ⟨w, hok, hid ?_⟩
  intro i
  fin_cases i <;> norm_num

/-- C8: each of the three projection operators fails with the
unimplemented-variant error for every configured variant other than its
supported ones (SOFTMAX; IDENTITY and NORM2; POSITIVE), for every input. -/
theorem C8_unimplemented_variants (t1 : ThresholdFunctions) (t2 : NormFunctions)
    (t3 : SubspaceFunctions) (h1 : t1 ≠ ThresholdFunctions.SOFTMAX)
    (h2 : t2 ≠ NormFunctions.IDENTITY) (h2b : t2 ≠ NormFunctions.NORM2)
    (h3 : t3 ≠ SubspaceFunctions.POSITIVE) (v : G → ℝ) (lam : ℝ) :
    threshold t1 v lam = Except.error "unimplemented threshold function." ∧
    norm_constraint t2 v = Except.error "unimplemented norm function. " ∧
    subspace_constraint t3 v = Except.error "unimplemented subspace constraint." := by
  refine ⟨?_, ?_, ?_⟩ <;>
    simp [threshold, norm_constraint, subspace_constraint, subspace_constraint_run,
      h1, h2, h2b, h3]

/-- C8 witness: variant value 5 is unsupported by all three operators. -/
theorem C8_unimplemented_variants_witness :
    threshold (5 : Int) (fun _ : Fin 1 => (0:ℝ)) 0 =
      Except.error "unimplemented threshold function." ∧
    norm_constraint (5 : Int) (fun _ : Fin 1 => (0:ℝ)) =
      Except.error "unimplemented norm function. " ∧
    subspace_constraint (5 : Int) (fun _ : Fin 1 => (0:ℝ)) =
      Except.error "unimplemented subspace constraint." :=
  C8_unimplemented_variants 5 5 5 (by decide) (by decide) (by decide) (by decide)
    (fun _ => 0) 0

/-- C10: the subspace constraint with the POSITIVE variant does not modify
its argument: after the call the argument holds its pre-call entries, and
the returned vector is the clamped copy. -/
theorem C10_subspace_positive_frame (v : G → ℝ) :
    (subspace_constraint_run SubspaceFunctions.POSITIVE v).2 = v ∧
    (subspace_constraint_run SubspaceFunctions.POSITIVE v).1 = Except.ok (clampNeg v) := by
  simp [subspace_constraint_run]

lemma inv_submatrix_perm (A : Matrix K K ℝ) (σ : Equiv.Perm K) :
    (A.submatrix ⇑σ ⇑σ)⁻¹ = A⁻¹.submatrix ⇑σ ⇑σ := by
  by_cases h : IsUnit A.det
  · apply Matrix.inv_eq_right_inv
    rw [Matrix.submatrix_mul_equiv A A⁻¹ ⇑σ σ ⇑σ, Matrix.mul_nonsing_inv _ h,
      Matrix.submatrix_one_equiv]
  · have h2 : ¬ IsUnit (A.submatrix ⇑σ ⇑σ).det := by
      rwa [Matrix.det_submatrix_equiv_self]
    rw [Matrix.nonsing_inv_apply_not_isUnit _ h, Matrix.nonsing_inv_apply_not_isUnit _ h2]
    ext i j
    simp

/-- C1: for a weight vector g with the weighted Gram matrix positive
definite and no degenerate rows, the solve inverts the Gram matrix and
evaluate(g) equals minus the average over cell types of the Pearson
correlation between the reference row and the estimated row of
c_hat = xtgxi * x.transpose * diag(g) * y. -/
theorem C1_evaluate_score (x : Matrix G K ℝ) (y : Matrix G S ℝ) (c : Matrix K S ℝ)
    (g : G → ℝ) (hpd : (xtgx x g).PosDef)
    (hdeg : ∀ k, stat.var (c k) ≠ 0 ∧
      stat.var (estimate_c_direct x y g (invxtgx x g) k) ≠ 0) :
    xtgx x g * invxtgx x g = 1 ∧
    eval x y c g =
      -(1 / (Fintype.card K : ℝ)) *
        ∑ k, stat.cor (c k) (estimate_c_direct x y g (invxtgx x g) k) := by
  constructor
  · exact Matrix.mul_nonsing_inv _ hpd.det_pos.ne'.isUnit
  · rw [eval, evaluate, Finset.sum_neg_distrib, neg_div]
    ring

/-- C1 witness: a one-gene, one-cell-type model with two samples, unit
design matrix and unit weights; the Gram matrix is the identity and both
rows (1, 2) have nonzero variance. -/
theorem C1_evaluate_score_witness :
    xtgx (!![(1:ℝ)] : Matrix (Fin 1) (Fin 1) ℝ) (fun _ => 1) *
        invxtgx !![(1:ℝ)] (fun _ => 1) = 1 ∧
    eval !![(1:ℝ)] (!![(1:ℝ), 2] : Matrix (Fin 1) (Fin 2) ℝ) !![(1:ℝ), 2] (fun _ => 1) =
      -(1 / (Fintype.card (Fin 1) : ℝ)) *
        ∑ k, stat.cor ((!![(1:ℝ), 2] : Matrix (Fin 1) (Fin 2) ℝ) k)
          (estimate_c_direct !![(1:ℝ)] !![(1:ℝ), 2] (fun _ => 1)
            (invxtgx !![(1:ℝ)] (fun _ => 1)) k) := by
  have hx : xtgx (!![(1:ℝ)] : Matrix (Fin 1) (Fin 1) ℝ) (fun _ => 1) = 1 := by
    ext i j
    fin_cases i
    fin_cases j
    rw [xtgx_apply]
    simp [Matrix.one_apply]
  have hchat : ∀ s, estimate_c_direct !![(1:ℝ)] (!![(1:ℝ), 2] : Matrix (Fin 1) (Fin 2) ℝ)
      (fun _ => 1) (invxtgx !![(1:ℝ)] (fun _ => 1)) 0 s = !![(1:ℝ), 2] 0 s := by
    intro s
    rw [estimate_apply, invxtgx, hx, inv_one]
    simp [Matrix.one_apply]
  have hpd : (xtgx (!![(1:ℝ)] : Matrix (Fin 1) (Fin 1) ℝ) (fun _ => 1)).PosDef := by
    rw [hx, ← Matrix.diagonal_one]
    exact Matrix.PosDef.diagonal fun _ => one_pos
  have hdeg : ∀ k : Fin 1, stat.var ((!![(1:ℝ), 2] : Matrix (Fin 1) (Fin 2) ℝ) k) ≠ 0 ∧
      stat.var (estimate_c_direct !![(1:ℝ)] !![(1:ℝ), 2] (fun _ => 1)
        (invxtgx !![(1:ℝ)] (fun _ => 1)) k) ≠ 0 := by
    intro k
    obtain rfl : k = 0 := Subsingleton.elim k 0
    constructor
    · rw [stat.var_fin_two]
      norm_num
    · rw [stat.var_fin_two, hchat 0, hchat 1]
      norm_num
  exact C1_evaluate_score !![(1:ℝ)] !![(1:ℝ), 2] !![(1:ℝ), 2] (fun _ => 1) hpd hdeg

/-- C4 (code evaluated at the failing input): with the unit 1x1 design
matrix and all-zero weights the weighted Gram matrix is not positive
definite, yet the solve returns a plain matrix (the unchecked result of
the Cholesky solve) and evaluate and gradient return plain numbers: no
error of any kind is raised. -/
theorem C4_no_error_on_non_posdef :
    ¬ (xtgx (!![(1:ℝ)] : Matrix (Fin 1) (Fin 1) ℝ) (fun _ => 0)).PosDef ∧
    invxtgx (!![(1:ℝ)] : Matrix (Fin 1) (Fin 1) ℝ) (fun _ => 0) = 0 ∧
    eval !![(1:ℝ)] (!![(1:ℝ), 2] : Matrix (Fin 1) (Fin 2) ℝ) !![(1:ℝ), 2] (fun _ => 0) = 0 ∧
    grad !![(1:ℝ)] (!![(1:ℝ), 2] : Matrix (Fin 1) (Fin 2) ℝ) !![(1:ℝ), 2] (fun _ => 0) =
      fun _ => 0 := by
  have hx : xtgx (!![(1:ℝ)] : Matrix (Fin 1) (Fin 1) ℝ) (fun _ => 0) = 0 := by
    ext i j
    fin_cases i
    fin_cases j
    rw [xtgx_apply]
    simp
  have hinv : invxtgx (!![(1:ℝ)] : Matrix (Fin 1) (Fin 1) ℝ) (fun _ => 0) = 0 := by
    rw [invxtgx, hx, Matrix.inv_zero]
  have hchat : ∀ s, estimate_c_direct !![(1:ℝ)] (!![(1:ℝ), 2] : Matrix (Fin 1) (Fin 2) ℝ)
      (fun _ => 0) (invxtgx !![(1:ℝ)] (fun _ => 0)) 0 s = 0 := by
    intro s
    rw [estimate_apply, hinv]
    simp
  refine ⟨?_, hinv, ?_, ?_⟩
  · intro h
    rw [hx] at h
    have hd := h.det_pos
    rw [Matrix.det_zero ⟨0⟩] at hd
    exact lt_irrefl 0 hd
  · rw [eval, evaluate]
    rw [Fin.sum_univ_one, stat.cor_fin_two, hchat 0, hchat 1]
    norm_num
  · funext i
    simp only [grad, grad_explicit_inverse, hinv, Matrix.mul_zero, Matrix.zero_mul,
      clampPos, Matrix.zero_apply]
    simp

/-- C9 (code evaluated at a failing input): the constructor at
models.hpp line 12 never initializes m_ngenes, so dim() returns whatever
indeterminate value that member holds (here 7) rather than the row count
of the stored design matrix (here 2). -/
theorem C9_dim_returns_uninitialized :
    (mkGoertlerModel 7 (!![(1:ℝ); 1] : Matrix (Fin 2) (Fin 1) ℝ)
      (!![(1:ℝ); 1] : Matrix (Fin 2) (Fin 1) ℝ)
      (!![(1:ℝ)] : Matrix (Fin 1) (Fin 1) ℝ)).dim = 7 ∧
    (7 : Int) ≠ (Fintype.card (Fin 2) : Int) := by
  exact ⟨rfl, by decide⟩

/-- C5 (amended): evaluate(g) is invariant under relabeling the cell
types, that is, under permuting the columns of X and the rows of C
together by the same permutation. -/
theorem C5_relabel_invariance (σ : Equiv.Perm K) (x : Matrix G K ℝ) (y : Matrix G S ℝ)
    (c : Matrix K S ℝ) (g : G → ℝ) :
    eval (x.submatrix id ⇑σ) y (c.submatrix ⇑σ id) g = eval x y c g := by
  have h1 : xtgx (x.submatrix id ⇑σ) g = (xtgx x g).submatrix ⇑σ ⇑σ := by
    ext k l
    rw [Matrix.submatrix_apply, xtgx_apply, xtgx_apply]
    simp [Matrix.submatrix_apply]
  have h2 : invxtgx (x.submatrix id ⇑σ) g = (invxtgx x g).submatrix ⇑σ ⇑σ := by
    rw [invxtgx, invxtgx, h1, inv_submatrix_perm]
  have h3 : ∀ k, estimate_c_direct (x.submatrix id ⇑σ) y g
      (invxtgx (x.submatrix id ⇑σ) g) k = estimate_c_direct x y g (invxtgx x g) (σ k) := by
    intro k
    funext s
    rw [estimate_apply, estimate_apply]
    have hinner : ∀ i : G,
        (∑ l, invxtgx (x.submatrix id ⇑σ) g k l * x.submatrix id (⇑σ) i l)
          = ∑ l, invxtgx x g (σ k) l * x i l := by
      intro i
      rw [h2, ← Equiv.sum_comp σ (fun l => invxtgx x g (σ k) l * x i l)]
      simp [Matrix.submatrix_apply]
    simp_rw [hinner]
  rw [eval, eval, evaluate, evaluate]
  congr 1
  conv_rhs => rw [← Equiv.sum_comp σ
    (fun k => -(stat.cor (c k) (estimate_c_direct x y g (invxtgx x g) k)))]
  apply Finset.sum_congr rfl
  intro k _
  have hc : (c.submatrix ⇑σ id) k = c (σ k) := by
    funext s
    simp [Matrix.submatrix_apply]
  rw [h3 k, hc]

/-- C5 counterexample: permuting the rows of X and of C together by the
same permutation (here the swap on two genes and two cell types) changes
the score, refuting the claim as stated. -/
theorem C5_row_permutation_counterexample :
    eval ((!![1, 0; 1, 1] : Matrix (Fin 2) (Fin 2) ℝ).submatrix ⇑(Equiv.swap (0 : Fin 2) 1) id)
        (!![1, 2; 3, 5] : Matrix (Fin 2) (Fin 2) ℝ)
        ((!![1, 2; 1, 2] : Matrix (Fin 2) (Fin 2) ℝ).submatrix ⇑(Equiv.swap (0 : Fin 2) 1) id)
        (fun _ => 1) ≠
      eval !![1, 0; 1, 1] !![1, 2; 3, 5] !![1, 2; 1, 2] (fun _ => 1) := by
  have hswx : ((!![1, 0; 1, 1] : Matrix (Fin 2) (Fin 2) ℝ).submatrix
      ⇑(Equiv.swap (0 : Fin 2) 1) id) = !![1, 1; 1, 0] := by
    ext i j
    fin_cases i <;> fin_cases j <;>
      simp [Matrix.submatrix_apply, Equiv.swap_apply_left, Equiv.swap_apply_right]
  have hswc : ((!![1, 2; 1, 2] : Matrix (Fin 2) (Fin 2) ℝ).submatrix
      ⇑(Equiv.swap (0 : Fin 2) 1) id) = !![1, 2; 1, 2] := by
    ext i j
    fin_cases i <;> fin_cases j <;>
      simp [Matrix.submatrix_apply, Equiv.swap_apply_left, Equiv.swap_apply_right]
  have hxt1 : xtgx (!![1, 0; 1, 1] : Matrix (Fin 2) (Fin 2) ℝ) (fun _ => 1) = !![2, 1; 1, 1] := by
    ext k l
    fin_cases k <;> fin_cases l <;> (rw [xtgx_apply]; simp [Fin.sum_univ_two]; try norm_num)
  have hxt2 : xtgx (!![1, 1; 1, 0] : Matrix (Fin 2) (Fin 2) ℝ) (fun _ => 1) = !![2, 1; 1, 1] := by
    ext k l
    fin_cases k <;> fin_cases l <;> (rw [xtgx_apply]; simp [Fin.sum_univ_two]; try norm_num)
  have hinv : (!![2, 1; 1, 1] : Matrix (Fin 2) (Fin 2) ℝ)⁻¹ = !![1, -1; -1, 2] := by
    apply Matrix.inv_eq_right_inv
    rw [Matrix.mul_fin_two, Matrix.one_fin_two]
    norm_num
  have hchat1 : estimate_c_direct (!![1, 0; 1, 1] : Matrix (Fin 2) (Fin 2) ℝ)
      (!![1, 2; 3, 5] : Matrix (Fin 2) (Fin 2) ℝ) (fun _ => 1)
      (invxtgx !![1, 0; 1, 1] (fun _ => 1)) = !![1, 2; 2, 3] := by
    rw [invxtgx, hxt1, hinv]
    ext k s
    fin_cases k <;> fin_cases s <;> (rw [estimate_apply]; simp [Fin.sum_univ_two]; try norm_num)
  have hchat2 : estimate_c_direct (!![1, 1; 1, 0] : Matrix (Fin 2) (Fin 2) ℝ)
      (!![1, 2; 3, 5] : Matrix (Fin 2) (Fin 2) ℝ) (fun _ => 1)
      (invxtgx !![1, 1; 1, 0] (fun _ => 1)) = !![3, 5; -2, -3] := by
    rw [invxtgx, hxt2, hinv]
    ext k s
    fin_cases k <;> fin_cases s <;> (rw [estimate_apply]; simp [Fin.sum_univ_two]; try norm_num)
  have habs1 : |(1 : ℝ) - 2| = 1 := by
    rw [show (1 : ℝ) - 2 = -1 by norm_num, abs_neg, abs_one]
  have habs2 : |(3 : ℝ) - 5| = 2 := by
    rw [show (3 : ℝ) - 5 = -2 by norm_num, abs_neg, abs_two]
  have habs3 : |(-2 : ℝ) - -3| = 1 := by
    rw [show (-2 : ℝ) - -3 = 1 by norm_num, abs_one]
  have habs4 : |(2 : ℝ) - 3| = 1 := by
    rw [show (2 : ℝ) - 3 = -1 by norm_num, abs_neg, abs_one]
  have he1 : eval (!![1, 0; 1, 1] : Matrix (Fin 2) (Fin 2) ℝ) !![1, 2; 3, 5] !![1, 2; 1, 2]
      (fun _ => 1) = -1 := by
    rw [eval, evaluate]
    simp only [hchat1, Fin.sum_univ_two, stat.cor_fin_two]
    norm_num [habs1, habs4]
  have he2 : eval (!![1, 1; 1, 0] : Matrix (Fin 2) (Fin 2) ℝ) !![1, 2; 3, 5] !![1, 2; 1, 2]
      (fun _ => 1) = 0 := by
    rw [eval, evaluate]
    simp only [hchat2, Fin.sum_univ_two, stat.cor_fin_two]
    norm_num [habs1, habs2, habs3]
  rw [hswx, hswc, he1, he2]
  norm_num

/-- C6 (code evaluated at the failing input): for the all-zero vector the
NORM2 norm constraint returns an ordinary result (the silent division by
the zero norm) rather than raising an error. -/
theorem C6_norm2_zero_input_no_error :
    norm_constraint NormFunctions.NORM2 (fun _ : Fin 2 => (0:ℝ)) =
      Except.ok (fun _ => (0:ℝ)) := by
  rw [norm_constraint, if_neg (by decide), if_pos rfl]
  congr 1
  funext i
  simp

end dtd
